import Mathlib

/-
Verification of the PSPTool core: the binary layout model and mutation engine
of a tool that inspects and edits AMD PSP firmware inside UEFI ROM images.

Bytes are modelled as natural numbers (the sources only ever move bytes
around, never perform arithmetic that could overflow a byte), byte strings
as lists of naturals.  Python exceptions are modelled as an error type
returned through `Except`; a function that returns `Except.error` has
produced no buffer, which models "fails before any bytes are written".

Definitions named after attributes and methods of the sources
(`create_file`, `from_file`, `to_file`, `move_buffer`, `set_bytes`, ...)
are translated from `psptool/psptool.py` and `psptool2/__main__.py`.
The classes `Blob`, `Entry`/`HeaderEntry`, `Directory` and `Fet` live in
files of this repository that are not part of the given sources; the
definitions standing in for them are modelled from the specification and
say so in their doc comments.
-/

/-- A byte string: Python `bytes` / `bytearray`, one natural per byte. -/
abbrev ByteStr := List Nat

/-- Python exceptions raised by `PSPTool.create_file`.  The specification
names these `UnsupportedSize` (the `NotImplementedError` raises for a bad
`rom_len`) and `InvalidVersionFormat` (the `ValueError` raises for a bad
`agesa_version`). -/
inductive PyError where
  | notImplementedError (msg : String)
  | valueError (msg : String)
  | attributeError (msg : String)
deriving DecidableEq, Repr

/-- Modelled from the spec (§3 ByteArena / §4.1): the `Blob` class owns the
single contiguous ROM byte buffer; `blob.py` is not among the given sources.
The constructor `Blob(rom_bytes, len(rom_bytes), psptool)` stores the bytes
it is given, and `get_buffer()` returns the owned bytes; per spec §4.2
parsing during construction never mutates the arena. -/
structure Blob where
  buffer : ByteStr
  buffer_size : Nat
deriving Repr, DecidableEq

/-- `Blob(rom_bytes, len(rom_bytes), psptool)` as called by `PSPTool.__init__`. -/
def Blob.ofBytes (rom_bytes : ByteStr) : Blob :=
  { buffer := rom_bytes, buffer_size := rom_bytes.length }

/-- Modelled from the spec: `get_buffer` hands out the arena bytes for
external use (writing to a file). -/
def Blob.get_buffer (b : Blob) : ByteStr :=
  b.buffer

/-- The state held by a `PSPTool` object: its `Blob` and optional filename
(`psptool/psptool.py`, `__init__` lines 68-72 and `from_file` line 31). -/
structure PSPToolState where
  blob : Blob
  filename : Option String
deriving Repr, DecidableEq

/-- `PSPTool.from_file` (psptool.py lines 26-33): read the file bytes,
construct a `PSPTool` over them, record the filename.  The file system is
external; the file contents arrive as the `rom_bytes` argument. -/
def from_file (filename : String) (rom_bytes : ByteStr) : PSPToolState :=
  { blob := Blob.ofBytes rom_bytes, filename := some filename }

/-- `PSPTool.to_file` (psptool.py lines 80-82): write `blob.get_buffer()`.
The file system is external; the bytes that would be written are returned. -/
def to_file (pt : PSPToolState) : ByteStr :=
  pt.blob.get_buffer

/-- The first-part validation condition of `PSPTool.create_file`
(psptool.py line 48), verbatim:
`len(agesa_version[0]) != 3 or (len(agesa_version[0]) == 3 and agesa_version[0] != b'!')`
where the byte string b"!" is `[0x21]`. -/
def firstPartInvalid (first : ByteStr) : Bool :=
  first.length != 3 || (first.length == 3 && first != [0x21])

/-- `PSPTool.create_file` (psptool.py lines 36-66), translated check for
check.  The final branch is unreachable for every byte-string input
(theorem `create_file_never_succeeds`); were it reached, the next source
statement `agesa_version[0].encode("ascii")` would raise `AttributeError`,
because Python `bytes` objects have no `encode` method — so the buffer
construction of lines 53-64 can never complete. -/
def create_file (rom_len : Nat) (agesa_version : List ByteStr) :
    Except PyError PSPToolState :=
  if rom_len != 0x1000000 then
    if rom_len == 0x800000 then
      .error (.notImplementedError "rom_len: 8 MiB image size is artificially unsupported.")
    else
      .error (.notImplementedError "rom_len: Only 16 MiB images are supported at the moment.")
  else if agesa_version.length != 2 then
    .error (.valueError "agesa_version: Has to consist of two parts.")
  else if firstPartInvalid (agesa_version.getD 0 []) then
    .error (.valueError "agesa_version: First part has to be an (ascii) exclamation mark followed by exactly 2 bytes.")
  else
    .error (.attributeError "bytes object has no attribute encode")

/-- Modelled from the spec (§4.1 ByteArena.write): overwrite the bytes of
`buf` at `[a, a + data.length)` with `data`.  For an in-bounds write this is
exactly the slice assignment the sources perform on the `bytearray`; the
spec makes an out-of-range write fail with `OutOfBounds`, which appears
here as in-bounds hypotheses on the theorems about it. -/
def writeBytes : ByteStr → Nat → ByteStr → ByteStr
  | buf, _, [] => buf
  | [], _, _ :: _ => []
  | _ :: bs, 0, d :: ds => d :: writeBytes bs 0 ds
  | b :: bs, n + 1, d :: ds => b :: writeBytes bs n (d :: ds)

/-- Modelled from the spec (§4.1 ByteArena.read): the bytes of
`[address, address + size)`. -/
def readRange (buf : ByteStr) (address size : Nat) : ByteStr :=
  (buf.drop address).take size

/-- A 32-bit value as 4 little-endian bytes. -/
def le32 (v : Nat) : ByteStr :=
  [v % 256, v / 256 % 256, v / 65536 % 256, v / 16777216 % 256]

/-- Modelled from the spec (§4.3 descriptor rewrite): the bytes written over
a directory entry descriptor record when its entry moved or resized.  The
spec leaves the exact on-disk field widths open (§9, open questions); they
are modelled as two 4-byte little-endian fields, address then size, at the
descriptor record offset.  The theorems depend only on the write having
this fixed 8-byte extent at the descriptor offset. -/
def descriptorBytes (address size : Nat) : ByteStr :=
  le32 address ++ le32 size

/-- Modelled from the spec (§4.3): rewrite, in every directory that
references the entry, the descriptor record at its own arena byte offset
with the entry's new address and size. -/
def rewriteDescriptors (buf : ByteStr) (offs : List Nat) (address size : Nat) : ByteStr :=
  match offs with
  | [] => buf
  | o :: rest =>
      rewriteDescriptors (writeBytes buf o (descriptorBytes address size)) rest address size

/-- Modelled from the spec (§4.1 ByteArena.relocate): copy the current
content of `[old_address, old_address + min old_length new_length)` to the
destination, zero-filling any growth.  The destination policy — a choice
the spec §4.1 explicitly requires the implementer to fix — is the
caller-supplied destination hint, matching the `psptool2` CLI which passes
the entry's current address as the hint. -/
def relocate (buf : ByteStr) (old_address old_length new_length dest : Nat) : ByteStr :=
  writeBytes buf dest
    ((buf.drop old_address).take (min old_length new_length) ++
      List.replicate (new_length - min old_length new_length) 0)

/-- The state relevant to one entry replacement: the arena buffer
(spec §4.1), the resolved entry's address and current size (spec §4.4), and
the arena offsets of the directory descriptor records that reference the
entry (spec §4.3). -/
structure ReplaceState where
  buffer : ByteStr
  entry_address : Nat
  entry_size : Nat
  descriptor_offsets : List Nat
deriving Repr, DecidableEq

/-- The error taxonomy of spec §7 used by the arena-level operations. -/
inductive ArenaError where
  | outOfBounds
  | lengthMismatch
deriving DecidableEq, Repr

/-- Modelled from the spec (§4.4 Entry.move_buffer): request relocation via
the arena, record the entry's new address and size, then rewrite the
descriptor of every directory that aliases the entry. -/
def move_buffer (s : ReplaceState) (new_address new_length : Nat) : ReplaceState :=
  { buffer :=
      rewriteDescriptors
        (relocate s.buffer s.entry_address s.entry_size new_length new_address)
        s.descriptor_offsets new_address new_length
    entry_address := new_address
    entry_size := new_length
    descriptor_offsets := s.descriptor_offsets }

/-- Modelled from the spec (§4.4 Entry.set_bytes): write `data` into the
arena at `entry_address + offset`; fails with `OutOfBounds` when
`offset + length` exceeds the entry's current size, and with
`LengthMismatch` when the declared length disagrees with the data. -/
def set_bytes (s : ReplaceState) (offset length : Nat) (data : ByteStr) :
    Except ArenaError ReplaceState :=
  if data.length != length then
    .error .lengthMismatch
  else if s.entry_size < offset + length then
    .error .outOfBounds
  else
    .ok { s with buffer := writeBytes s.buffer (s.entry_address + offset) data }

/-- Serialization of the arena for `psp.to_file(outfile)`: the full buffer. -/
def serialize (s : ReplaceState) : ByteStr :=
  s.buffer

/-- The replace-entry workflow of `psptool2/__main__.py` lines 67-71, in
source order: resolve the entry, `entry.move_buffer(entry.get_address(),
len(sub_binary))`, `entry.set_bytes(0, len(sub_binary), sub_binary)`, then
`psp.to_file(outfile)` serializing the full arena. -/
def replace_entry_workflow (s : ReplaceState) (sub_binary : ByteStr) :
    Except ArenaError (ReplaceState × ByteStr) :=
  let s1 := move_buffer s s.entry_address sub_binary.length
  (set_bytes s1 0 sub_binary.length sub_binary).map fun s2 => (s2, serialize s2)

/-- The command-line arguments of `psptool2/__main__.py` relevant to its
control flow (lines 33-58): the four `SUPPRESS`ed options default to
`None`, i.e. `none`, when not given. -/
structure Args where
  file : String
  verbose : Bool
  directory_index : Option Int
  entry_index : Option Int
  subfile : Option String
  outfile : Option String
  entries : Bool
  replace_entry : Bool
deriving Repr, DecidableEq

/-- The externally visible outcome of one `main` invocation. -/
inductive MainOutcome where
  | wroteFile (outfile : String) (contents : ByteStr)
  | printedUsage
  | printedListing
  | fatal (e : ArenaError)
deriving Repr, DecidableEq

/-- The decision structure of `psptool2/__main__.py` `main` lines 61-75:
with `--replace-entry`, either all of directory-index, entry-index, subfile
and outfile are present and the replace workflow runs and writes `outfile`,
or the usage text is printed to stderr; without it, the listing is printed.
The resolved entry state and the subfile contents stand in for the file
system and the parsed blob. -/
def runMain (args : Args) (sub_binary : ByteStr) (s : ReplaceState) : MainOutcome :=
  if args.replace_entry then
    if args.directory_index.isSome && args.entry_index.isSome &&
        args.subfile.isSome && args.outfile.isSome then
      match replace_entry_workflow s sub_binary with
      | .ok (_, out) => .wroteFile (args.outfile.getD "") out
      | .error e => .fatal e
    else
      .printedUsage
  else
    .printedListing

/-- The output files a `main` invocation writes. -/
def filesWritten : MainOutcome → List String
  | .wroteFile o _ => [o]
  | .printedUsage => []
  | .printedListing => []
  | .fatal _ => []

/-- Modelled from the spec (§3 / §4.5 UniqueEntryRegistry): a registry
entry is identified by its (address, type) pair; the `Entry` class of
`entry.py` is not among the given sources. -/
structure REntry where
  address : Nat
  type_id : Nat
deriving DecidableEq, Repr

/-- Identity comparison of registry entries: same address and same type
(spec §4.5: "inserts by identity (address, type)"). -/
def sameIdentity (a b : REntry) : Bool :=
  a.address == b.address && a.type_id == b.type_id

/-- Modelled from the spec (§4.5): insert an entry into the registry unless
an entry of the same identity is already present ("a second directory
referencing the same address contributes no duplicate"). -/
def insertUnique (acc : List REntry) (e : REntry) : List REntry :=
  if acc.any (sameIdentity e) then acc else acc ++ [e]

/-- Modelled from the spec (§4.5 collect): traverse the resolved entries in
order and insert each by identity. -/
def collectUnique (acc : List REntry) : List REntry → List REntry
  | [] => acc
  | e :: rest => collectUnique (insertUnique acc e) rest

/-- Modelled from the spec (§4.5): `self.blob.unique_entries`, built by
unioning every directory's resolved entries, deduplicated by identity. -/
def unique_entries (dirs : List (List REntry)) : List REntry :=
  collectUnique [] dirs.flatten

/-- The order used for listing: ascending entry address (spec §4.5:
"Ordering for consumers is address-ascending"; the Python `sorted` call
uses the `Entry` order of the external `entry.py`). -/
def addrLE (a b : REntry) : Prop :=
  a.address ≤ b.address

instance : DecidableRel addrLE :=
  fun _ _ => Nat.decLe _ _

instance : IsTotal REntry addrLE :=
  ⟨fun _ _ => Nat.le_total _ _⟩

instance : IsTrans REntry addrLE :=
  ⟨fun _ _ _ => Nat.le_trans⟩

/-- `ls_entries` with no explicit entry sequence (psptool.py lines 105-108):
`entries = sorted(self.blob.unique_entries)`, the deduplicated registry
sorted ascending by address (a stable sort, modelled by insertion sort). -/
def ls_entries_default (dirs : List (List REntry)) : List REntry :=
  List.insertionSort addrLE (unique_entries dirs)

/-- Modelled from the spec (§3 Entry / §4.4): the attributes of an entry
that `ls_entries` renders; the `Entry` class of `entry.py` is not among the
given sources.  The readable strings are the results of the external
name/version formatting helpers (`get_readable_type`, `get_readable_magic`,
`get_readable_version`, `get_readable_signed_by`), which spec §1 places out
of scope. -/
structure EntryBase where
  address : Nat
  buffer_size : Nat
  readable_type : String
  readable_magic : String
  readable_version : String
  readable_signed_by : String
  compressed : Bool
  signed : Bool
  encrypted : Bool
  is_legacy : Bool
deriving Repr, DecidableEq, Inhabited

/-- Modelled from the spec (§9 design notes): the closed, tagged variant
for the dynamic `type(entry) is HeaderEntry` check of psptool.py line 141 —
extended size fields exist only on the header-carrying variant. -/
inductive LsEntry where
  | plainEntry (base : EntryBase)
  | headerEntry (base : EntryBase) (size_signed size_uncompressed rom_size : Nat)
deriving Repr, DecidableEq, Inhabited

/-- The shared attributes of either entry variant. -/
def LsEntry.base : LsEntry → EntryBase
  | .plainEntry b => b
  | .headerEntry b _ _ _ => b

/-- Python `hex(n)` for a natural number: `0x` and lowercase hex digits. -/
def pyHex (n : Nat) : String :=
  "0x" ++ String.mk (Nat.toDigits 16 n)

/-- The `info` flag summary of psptool.py lines 117-127, in source order:
compressed, signed (with the readable signer and, when the signature
verifies, `verified`), legacy header, encrypted. -/
def infoList (b : EntryBase) (verified : Bool) : List String :=
  (if b.compressed then ["compressed"] else []) ++
  (if b.signed then
    ["signed(" ++ b.readable_signed_by ++ ")"] ++
      (if verified then ["verified"] else [])
  else []) ++
  (if b.is_legacy then ["legacy Header"] else []) ++
  (if b.encrypted then ["encrypted"] else [])

/-- psptool.py lines 141-148: only a `HeaderEntry` row carries the three
extended size values, rendered in hex; every other entry contributes three
empty strings (`3 * ['']`). -/
def extendedSizeColumns : LsEntry → List String
  | .headerEntry _ ss su rs => [pyHex ss, pyHex su, pyHex rs]
  | .plainEntry _ => ["", "", ""]

/-- One `all_values` row of `ls_entries` (psptool.py lines 129-148): the
nine basic columns followed by the three extended size columns.  `md5hex`
is the entry digest delivered by the external hash, `verified` the result
of the external signature verification. -/
def rowValues (index : Nat) (e : LsEntry) (md5hex : String) (verified : Bool) :
    List String :=
  ["",
   toString index,
   pyHex e.base.address,
   pyHex e.base.buffer_size,
   e.base.readable_type,
   e.base.readable_magic,
   e.base.readable_version,
   String.intercalate ", " (infoList e.base verified),
   (md5hex.take 4).toUpper] ++ extendedSizeColumns e

/-- Modelled from the spec (§3 Directory): the directory attributes that
`ls` renders (psptool.py lines 87-94); `directory.py` is not among the
given sources. -/
structure LsDirectory where
  address : Nat
  dtype : Nat
  magic : ByteStr
  secondary_directory_address : Nat
  entries : List LsEntry
deriving Repr, Inhabited

/-- The external capabilities the listing consumes (spec §1 places them out
of scope): the content digest (`entry.md5()`), the cryptographic signature
verification (`entry.verify_signature()`), and the magic decoding
(`bytes.decode`).  Their types can read the arena content they are handed
but cannot touch the tool state. -/
structure ExternalFns where
  md5fn : ByteStr → String
  verifyFn : ByteStr → Bool
  decodeFn : ByteStr → String

/-- The `PSPTool` state the listing walks: the owned buffer, the directories
of each discovered firmware entry table (`blob.fets`), and the deduplicated
registry (`blob.unique_entries`); the parsed views are modelled from spec
§2/§3 since `blob.py` and `fet.py` are not among the given sources. -/
structure PSPToolLs where
  buffer : ByteStr
  fets : List (List LsDirectory)
  unique_entries : List LsEntry

/-- One iteration of the `ls_entries` row loop (psptool.py lines 116-150):
digest and signature verification read the entry's current bytes from the
arena; the state is threaded and returned. -/
def entryRow (fns : ExternalFns) (s : PSPToolLs) (index : Nat) (e : LsEntry) :
    List String × PSPToolLs :=
  let content := readRange s.buffer e.base.address e.base.buffer_size
  (rowValues index e (fns.md5fn content) (fns.verifyFn content), s)

/-- The `ls_entries` row loop over an entry sequence, threading the state. -/
def lsEntriesAux (fns : ExternalFns) :
    PSPToolLs → Nat → List LsEntry → List (List String) × PSPToolLs
  | s, _, [] => ([], s)
  | s, i, e :: rest =>
    let p := entryRow fns s i e
    let q := lsEntriesAux fns p.2 (i + 1) rest
    (p.1 :: q.1, q.2)

/-- The address order on listed entries (the Python `Entry` sort order). -/
def entryAddrLE (a b : LsEntry) : Prop :=
  a.base.address ≤ b.base.address

instance : DecidableRel entryAddrLE :=
  fun _ _ => Nat.decLe _ _

/-- `PSPTool.ls_entries` (psptool.py lines 105-157): with no explicit entry
sequence, list the sorted deduplicated registry; otherwise list the given
sequence. -/
def ls_entries (fns : ExternalFns) (s : PSPToolLs) (entries : Option (List LsEntry)) :
    List (List String) × PSPToolLs :=
  match entries with
  | none => lsEntriesAux fns s 0 (List.insertionSort entryAddrLE s.unique_entries)
  | some es => lsEntriesAux fns s 0 es

/-- The directory header row of `ls` (psptool.py lines 87-94). -/
def directoryRow (fns : ExternalFns) (index : Nat) (d : LsDirectory) : List String :=
  [toString index,
   pyHex d.address,
   toString d.dtype,
   fns.decodeFn d.magic,
   if d.secondary_directory_address != 0 then pyHex d.secondary_directory_address
   else "--"]

/-- `PSPTool.ls_dir` (psptool.py lines 101-103): list the entries of the
directory at the given index of a table (`ls` only calls it in range; an
out-of-range index is given the default directory rather than Python's
`IndexError`, which no theorem relies on). -/
def ls_dir (fns : ExternalFns) (s : PSPToolLs) (fet : List LsDirectory)
    (directory_index : Nat) : List (List String) × PSPToolLs :=
  ls_entries fns s (some ((fet.getD directory_index default).entries))

/-- The directory loop of `ls` (psptool.py lines 86-99): for each directory,
its header row, then its entry rows via `ls_dir`. -/
def lsDirsAux (fns : ExternalFns) :
    PSPToolLs → Nat → List LsDirectory → List (List String) × PSPToolLs
  | s, _, [] => ([], s)
  | s, i, d :: rest =>
    let p := ls_entries fns s (some d.entries)
    let q := lsDirsAux fns p.2 (i + 1) rest
    (directoryRow fns i d :: p.1 ++ q.1, q.2)

/-- The table loop of `ls` (psptool.py line 85). -/
def lsFetsAux (fns : ExternalFns) :
    PSPToolLs → List (List LsDirectory) → List (List String) × PSPToolLs
  | s, [] => ([], s)
  | s, f :: rest =>
    let p := lsDirsAux fns s 0 f
    let q := lsFetsAux fns p.2 rest
    (p.1 ++ q.1, q.2)

/-- `PSPTool.ls` (psptool.py lines 84-99): every table, every directory,
every entry row, threading the tool state. -/
def ls (fns : ExternalFns) (s : PSPToolLs) : List (List String) × PSPToolLs :=
  lsFetsAux fns s s.fets

/-- The first-part check of line 48 accepts no byte string at all: a string
of length 3 can never equal the length-1 string b"!". -/
theorem firstPartInvalid_true (first : ByteStr) : firstPartInvalid first = true := by
  unfold firstPartInvalid
  by_cases h : first.length = 3
  · have hne : first ≠ [0x21] := by
      intro he
      rw [he] at h
      simp at h
    simp [h, hne]
  · simp [h]

/-- Claim C1: evaluating `create_file` at the supported size and the
documented well-formed version — which is also the function's own default
argument `agesa_version=[b"!10", b"B"]`, that is `[[0x21, 0x31, 0x30], [0x42]]` —
does not return a fresh 16 MiB image: the first-part validation of line 48
rejects it (it compares the whole field against b"!" instead of its first
byte) and `create_file` raises `ValueError`. -/
theorem create_file_default_raises :
    create_file 0x1000000 [[0x21, 0x31, 0x30], [0x42]] =
      .error (.valueError "agesa_version: First part has to be an (ascii) exclamation mark followed by exactly 2 bytes.") := by
  rfl

/-- Claim C4: whenever the first version field is not exactly the required
width (3 bytes: the exclamation mark followed by 2 bytes), `create_file`
with the supported size fails with the version-format `ValueError`
(the error the spec calls `InvalidVersionFormat`), for every second field;
the error return carries no state, i.e. no bytes of a fresh image were
written. -/
theorem create_file_wrong_width_fails (first second : ByteStr)
    (h : first.length ≠ 3) :
    create_file 0x1000000 [first, second] =
      .error (.valueError "agesa_version: First part has to be an (ascii) exclamation mark followed by exactly 2 bytes.") := by
  simp [create_file, firstPartInvalid_true]

/-- Witness for C4 at the documented failing input `(b"!1", b"B")`. -/
theorem create_file_wrong_width_witness :
    ([0x21, 0x31] : ByteStr).length ≠ 3 ∧
      create_file 0x1000000 [[0x21, 0x31], [0x42]] =
        .error (.valueError "agesa_version: First part has to be an (ascii) exclamation mark followed by exactly 2 bytes.") :=
  ⟨by decide, create_file_wrong_width_fails [0x21, 0x31] [0x42] (by decide)⟩

/-- Claim C5: for every `rom_len` other than 0x1000000, `create_file` fails
with a `NotImplementedError` about the size (the error the spec calls
`UnsupportedSize`), for every version argument; the error return carries no
state, i.e. no bytes were written. -/
theorem create_file_wrong_size_fails (rom_len : Nat) (agesa_version : List ByteStr)
    (h : rom_len ≠ 0x1000000) :
    ∃ msg, create_file rom_len agesa_version = .error (.notImplementedError msg) := by
  by_cases h8 : rom_len = 0x800000
  · exact ⟨"rom_len: 8 MiB image size is artificially unsupported.", by
      simp [create_file, h, h8]⟩
  · exact ⟨"rom_len: Only 16 MiB images are supported at the moment.", by
      simp [create_file, h, h8]⟩

/-- Witness for C5 at the documented failing size 0x800000 (8 MiB). -/
theorem create_file_wrong_size_witness :
    (0x800000 : Nat) ≠ 0x1000000 ∧
      ∃ msg, create_file 0x800000 [[0x21, 0x31, 0x30], [0x42]] =
        .error (.notImplementedError msg) :=
  ⟨by decide, create_file_wrong_size_fails 0x800000 [[0x21, 0x31, 0x30], [0x42]] (by decide)⟩

/-- Claim C6: the first-field validation of line 48 rejects every byte
string (length not 3, or length 3 but the whole field compared — and never
equal — to the one-byte string b"!"), and consequently no invocation of
`create_file` ever returns successfully. -/
theorem create_file_never_succeeds :
    (∀ first : ByteStr, firstPartInvalid first = true) ∧
      ∀ (rom_len : Nat) (agesa_version : List ByteStr),
        (create_file rom_len agesa_version).isOk = false := by
  refine ⟨firstPartInvalid_true, ?_⟩
  intro rom_len agesa_version
  unfold create_file
  split
  · split <;> rfl
  · split
    · rfl
    · split <;> rfl

/-- Claim C2: loading any byte sequence via `from_file` and writing it back
via `to_file` with no mutation in between is the identity on the bytes. -/
theorem from_file_to_file_roundtrip (filename : String) (rom_bytes : ByteStr) :
    to_file (from_file filename rom_bytes) = rom_bytes :=
  rfl

/-- `writeBytes` never changes the buffer length (the in-place overwrite of
a `bytearray` slice of equal length). -/
theorem writeBytes_length (buf : ByteStr) (a : Nat) (data : ByteStr) :
    (writeBytes buf a data).length = buf.length := by
  induction buf generalizing a data with
  | nil => cases data <;> simp [writeBytes]
  | cons b bs ih =>
    cases data with
    | nil => simp [writeBytes]
    | cons d ds =>
      cases a with
      | zero => simpa [writeBytes] using ih 0 ds
      | succ n => simpa [writeBytes] using ih n (d :: ds)

/-- Bytes strictly before or after the written range are untouched. -/
theorem writeBytes_getD_outside (buf : ByteStr) (a : Nat) (data : ByteStr) (i : Nat)
    (hout : i < a ∨ a + data.length ≤ i) :
    (writeBytes buf a data).getD i 0 = buf.getD i 0 := by
  induction buf generalizing a data i with
  | nil => cases data <;> simp [writeBytes]
  | cons b bs ih =>
    cases data with
    | nil => simp [writeBytes]
    | cons d ds =>
      cases a with
      | zero =>
        have hi : ds.length + 1 ≤ i := by
          rcases hout with h | h
          · omega
          · simpa using h
        obtain ⟨j, rfl⟩ : ∃ j, i = j + 1 := ⟨i - 1, by omega⟩
        have := ih 0 ds j (Or.inr (by omega))
        simpa [writeBytes] using this
      | succ n =>
        cases i with
        | zero => simp [writeBytes]
        | succ j =>
          have hout2 : j < n ∨ n + (d :: ds).length ≤ j := by
            rcases hout with h | h
            · exact Or.inl (by omega)
            · right
              simp only [List.length_cons] at h ⊢
              omega
          have := ih n (d :: ds) j hout2
          simpa [writeBytes] using this

/-- An in-bounds write stores exactly the given data at the written range. -/
theorem writeBytes_getD_inside (buf : ByteStr) (a : Nat) (data : ByteStr) (j : Nat)
    (hin : a + data.length ≤ buf.length) (hj : j < data.length) :
    (writeBytes buf a data).getD (a + j) 0 = data.getD j 0 := by
  induction buf generalizing a data j with
  | nil =>
    simp only [List.length_nil, Nat.le_zero] at hin
    omega
  | cons b bs ih =>
    cases data with
    | nil => simp at hj
    | cons d ds =>
      cases a with
      | zero =>
        cases j with
        | zero => simp [writeBytes]
        | succ k =>
          have hin2 : 0 + ds.length ≤ bs.length := by
            simp only [List.length_cons] at hin
            omega
          have hk : k < ds.length := by simpa using hj
          have := ih 0 ds k hin2 hk
          simpa [writeBytes] using this
      | succ n =>
        have hin2 : n + (d :: ds).length ≤ bs.length := by
          simp only [List.length_cons] at hin ⊢
          omega
        have harr : n + 1 + j = (n + j) + 1 := by omega
        have := ih n (d :: ds) j hin2 hj
        rw [show writeBytes (b :: bs) (n + 1) (d :: ds) = b :: writeBytes bs n (d :: ds) from rfl,
          harr, List.getD_cons_succ]
        exact this

/-- Descriptor rewriting never changes the buffer length. -/
theorem rewriteDescriptors_length (offs : List Nat) (buf : ByteStr) (address size : Nat) :
    (rewriteDescriptors buf offs address size).length = buf.length := by
  induction offs generalizing buf with
  | nil => rfl
  | cons o rest ih =>
    simp [rewriteDescriptors, ih, writeBytes_length]

/-- Bytes outside every rewritten descriptor record are untouched. -/
theorem rewriteDescriptors_getD_outside (offs : List Nat) (buf : ByteStr)
    (address size i : Nat) (hout : ∀ o ∈ offs, i < o ∨ o + 8 ≤ i) :
    (rewriteDescriptors buf offs address size).getD i 0 = buf.getD i 0 := by
  induction offs generalizing buf with
  | nil => rfl
  | cons o rest ih =>
    have ho := hout o (List.mem_cons_self o rest)
    have hrest : ∀ p ∈ rest, i < p ∨ p + 8 ≤ i := fun p hp =>
      hout p (List.mem_cons_of_mem o hp)
    rw [show rewriteDescriptors buf (o :: rest) address size =
          rewriteDescriptors (writeBytes buf o (descriptorBytes address size))
            rest address size from rfl,
      ih _ hrest]
    exact writeBytes_getD_outside buf o _ i (by simpa [descriptorBytes, le32] using ho)

/-- Relocation never changes the buffer length. -/
theorem relocate_length (buf : ByteStr) (oa ol nl dest : Nat) :
    (relocate buf oa ol nl dest).length = buf.length :=
  writeBytes_length _ _ _

/-- Relocation to `dest` with new length `nl` touches only `[dest, dest+nl)`. -/
theorem relocate_getD_outside (buf : ByteStr) (oa ol nl dest i : Nat)
    (hout : i < dest ∨ dest + nl ≤ i) :
    (relocate buf oa ol nl dest).getD i 0 = buf.getD i 0 := by
  apply writeBytes_getD_outside
  rcases hout with h | h
  · exact Or.inl h
  · right
    have h1 : ((buf.drop oa).take (min ol nl)).length ≤ min ol nl := by
      rw [List.length_take]
      exact Nat.min_le_left _ _
    have h2 : (List.replicate (nl - min ol nl) (0 : Nat)).length = nl - min ol nl := by
      simp
    rw [List.length_append, h2]
    have h3 := Nat.min_le_right ol nl
    omega

/-- Claim C3: the replace-entry workflow resolves the entry, relocates it to
the payload's length, overwrites its content with the payload, and
serializes the full buffer, in that order (the order is the definition of
`replace_entry_workflow`, mirroring `__main__.py` lines 67-71).  The result
is the serialized buffer; it has the input's length, carries the payload at
the entry's address, and agrees with the input at every index outside the
relocated entry's new range and outside every rewritten 8-byte descriptor
record. -/
theorem replace_entry_workflow_frame (s : ReplaceState) (sub_binary : ByteStr)
    (hbound : s.entry_address + sub_binary.length ≤ s.buffer.length) :
    ∃ s2, replace_entry_workflow s sub_binary = .ok (s2, s2.buffer) ∧
      s2.entry_address = s.entry_address ∧
      s2.entry_size = sub_binary.length ∧
      s2.buffer.length = s.buffer.length ∧
      (∀ j, j < sub_binary.length →
        s2.buffer.getD (s.entry_address + j) 0 = sub_binary.getD j 0) ∧
      (∀ i, (i < s.entry_address ∨ s.entry_address + sub_binary.length ≤ i) →
        (∀ o ∈ s.descriptor_offsets, i < o ∨ o + 8 ≤ i) →
        s2.buffer.getD i 0 = s.buffer.getD i 0) := by
  refine ⟨⟨writeBytes
      (rewriteDescriptors
        (relocate s.buffer s.entry_address s.entry_size sub_binary.length s.entry_address)
        s.descriptor_offsets s.entry_address sub_binary.length)
      s.entry_address sub_binary,
      s.entry_address, sub_binary.length, s.descriptor_offsets⟩, ?_, rfl, rfl, ?_, ?_, ?_⟩
  · simp [replace_entry_workflow, move_buffer, set_bytes, serialize, Except.map]
  · rw [writeBytes_length, rewriteDescriptors_length, relocate_length]
  · intro j hj
    apply writeBytes_getD_inside
    · rw [rewriteDescriptors_length, relocate_length]
      exact hbound
    · exact hj
  · intro i hi hdesc
    rw [writeBytes_getD_outside _ _ _ _ hi,
      rewriteDescriptors_getD_outside _ _ _ _ _ hdesc,
      relocate_getD_outside _ _ _ _ _ _ hi]

/-- Witness for C3: a 12-byte arena, an entry of size 3 at address 2
replaced by a 2-byte payload, one aliasing descriptor record at offset 4. -/
theorem replace_entry_workflow_frame_witness :
    ∃ s2, replace_entry_workflow
        ⟨[1, 2, 3, 4, 5, 6, 7, 8, 9, 10, 11, 12], 2, 3, [4]⟩ [7, 7] =
        .ok (s2, s2.buffer) ∧
      s2.entry_address = 2 ∧
      s2.entry_size = 2 ∧
      s2.buffer.length = 12 ∧
      (∀ j, j < 2 → s2.buffer.getD (2 + j) 0 = ([7, 7] : ByteStr).getD j 0) ∧
      (∀ i, (i < 2 ∨ 2 + 2 ≤ i) → (∀ o ∈ ([4] : List Nat), i < o ∨ o + 8 ≤ i) →
        s2.buffer.getD i 0 =
          ([1, 2, 3, 4, 5, 6, 7, 8, 9, 10, 11, 12] : ByteStr).getD i 0) :=
  replace_entry_workflow_frame
    ⟨[1, 2, 3, 4, 5, 6, 7, 8, 9, 10, 11, 12], 2, 3, [4]⟩ [7, 7] (by decide)

/-- Claim C7: a `--replace-entry` invocation missing any of directory-index,
entry-index, subfile or outfile prints the usage text and writes no output
file, whatever the ROM state and subfile contents. -/
theorem malformed_replace_is_side_effect_free (args : Args) (sub_binary : ByteStr)
    (s : ReplaceState) (hr : args.replace_entry = true)
    (hmiss : args.directory_index = none ∨ args.entry_index = none ∨
      args.subfile = none ∨ args.outfile = none) :
    runMain args sub_binary s = .printedUsage ∧
      filesWritten (runMain args sub_binary s) = [] := by
  have hcond : (args.directory_index.isSome && args.entry_index.isSome &&
      args.subfile.isSome && args.outfile.isSome) = false := by
    rcases hmiss with h | h | h | h <;> simp [h]
  refine ⟨?_, ?_⟩ <;> simp [runMain, hr, hcond, filesWritten]

/-- Witness for C7: `--replace-entry` with a directory index and an outfile
but no entry index and no subfile. -/
theorem malformed_replace_witness :
    runMain ⟨"rom.bin", false, some 0, none, none, some "out.bin", false, true⟩
        [1, 2] ⟨[0, 0, 0, 0], 0, 1, []⟩ = .printedUsage ∧
      filesWritten (runMain
        ⟨"rom.bin", false, some 0, none, none, some "out.bin", false, true⟩
        [1, 2] ⟨[0, 0, 0, 0], 0, 1, []⟩) = [] :=
  malformed_replace_is_side_effect_free _ _ _ rfl (Or.inr (Or.inl rfl))

/-- `sameIdentity` unfolds to equality of address and type. -/
theorem sameIdentity_iff (a b : REntry) :
    sameIdentity a b = true ↔ a.address = b.address ∧ a.type_id = b.type_id := by
  simp [sameIdentity]

/-- Identity agreement is transitive. -/
theorem sameIdentity_trans (a b c : REntry) (h1 : sameIdentity a b = true)
    (h2 : sameIdentity b c = true) : sameIdentity a c = true := by
  rw [sameIdentity_iff] at h1 h2 ⊢
  exact ⟨h1.1.trans h2.1, h1.2.trans h2.2⟩

/-- Inserting into the registry keeps every present entry. -/
theorem insertUnique_mem (acc : List REntry) (e x : REntry) (hx : x ∈ acc) :
    x ∈ insertUnique acc e := by
  unfold insertUnique
  split
  · exact hx
  · exact List.mem_append_left _ hx

/-- Inserting preserves "at most one entry of each identity". -/
theorem insertUnique_countP_le (acc : List REntry) (e k : REntry)
    (h : acc.countP (sameIdentity k) ≤ 1) :
    (insertUnique acc e).countP (sameIdentity k) ≤ 1 := by
  unfold insertUnique
  split
  · exact h
  · rename_i hany
    rw [List.countP_append, List.countP_singleton]
    by_cases hk : sameIdentity k e = true
    · have h0 : acc.countP (sameIdentity k) = 0 := by
        by_contra hne
        obtain ⟨x, hx, hkx⟩ := List.countP_pos_iff.mp (Nat.pos_of_ne_zero hne)
        have hex : sameIdentity e x = true := by
          rw [sameIdentity_iff] at hk hkx ⊢
          exact ⟨hk.1 ▸ hkx.1, hk.2 ▸ hkx.2⟩
        exact hany (List.any_eq_true.mpr ⟨x, hx, hex⟩)
      rw [h0, hk]
      simp
    · rw [Bool.not_eq_true] at hk
      rw [hk]
      simpa using h

/-- The full collection keeps at most one entry of each identity. -/
theorem collectUnique_countP_le (es acc : List REntry) (k : REntry)
    (h : acc.countP (sameIdentity k) ≤ 1) :
    (collectUnique acc es).countP (sameIdentity k) ≤ 1 := by
  induction es generalizing acc with
  | nil => exact h
  | cons e rest ih => exact ih _ (insertUnique_countP_le acc e k h)

/-- Every identity referenced by the accumulator or the traversal appears in
the collected registry. -/
theorem collectUnique_mem (es acc : List REntry) (k : REntry)
    (hmem : (∃ x ∈ acc, sameIdentity k x = true) ∨ ∃ e ∈ es, sameIdentity k e = true) :
    ∃ x ∈ collectUnique acc es, sameIdentity k x = true := by
  induction es generalizing acc with
  | nil =>
    rcases hmem with h | h
    · exact h
    · obtain ⟨e, he, _⟩ := h
      exact absurd he (List.not_mem_nil e)
  | cons e rest ih =>
    have step : (∃ x ∈ insertUnique acc e, sameIdentity k x = true) ∨
        ∃ f ∈ rest, sameIdentity k f = true := by
      rcases hmem with ⟨x, hx, hkx⟩ | ⟨f, hf, hkf⟩
      · exact Or.inl ⟨x, insertUnique_mem acc e x hx, hkx⟩
      · rcases List.mem_cons.mp hf with heq | hf2
        · subst heq
          left
          unfold insertUnique
          split
          · rename_i hany
            obtain ⟨y, hy, hey⟩ := List.any_eq_true.mp hany
            exact ⟨y, hy, sameIdentity_trans k f y hkf hey⟩
          · exact ⟨f, List.mem_append_right _ (by simp), hkf⟩
        · exact Or.inr ⟨f, hf2, hkf⟩
    exact ih (insertUnique acc e) step

/-- Claim C8: with no explicit entry sequence, `ls_entries` lists the
deduplicated unique-entry registry sorted ascending by address: the listing
is address-sorted, and every entry referenced by some directory appears in
it exactly once per identity (an entry referenced by two directories at the
same address is listed once). -/
theorem ls_entries_default_sorted_unique (dirs : List (List REntry)) :
    List.Sorted addrLE (ls_entries_default dirs) ∧
      ∀ e ∈ dirs.flatten, (ls_entries_default dirs).countP (sameIdentity e) = 1 := by
  constructor
  · exact List.sorted_insertionSort addrLE _
  · intro e he
    have hperm : List.Perm (List.insertionSort addrLE (unique_entries dirs))
        (unique_entries dirs) :=
      List.perm_insertionSort addrLE _
    rw [ls_entries_default, hperm.countP_eq]
    have hle : (unique_entries dirs).countP (sameIdentity e) ≤ 1 :=
      collectUnique_countP_le _ _ _ (by simp)
    have hmem : ∃ x ∈ collectUnique [] dirs.flatten, sameIdentity e x = true :=
      collectUnique_mem _ _ _ (Or.inr ⟨e, he, by simp [sameIdentity]⟩)
    have hpos : 0 < (unique_entries dirs).countP (sameIdentity e) :=
      List.countP_pos_iff.mpr hmem
    omega

/-- Witness for C8: two directories sharing the entry at address 0x1000;
the listing is sorted and lists that entry exactly once. -/
theorem ls_entries_default_witness :
    List.Sorted addrLE
        (ls_entries_default [[⟨16, 1⟩, ⟨4096, 2⟩], [⟨4096, 2⟩, ⟨8, 3⟩]]) ∧
      (ls_entries_default [[⟨16, 1⟩, ⟨4096, 2⟩], [⟨4096, 2⟩, ⟨8, 3⟩]]).countP
        (sameIdentity ⟨4096, 2⟩) = 1 :=
  ⟨(ls_entries_default_sorted_unique [[⟨16, 1⟩, ⟨4096, 2⟩], [⟨4096, 2⟩, ⟨8, 3⟩]]).1,
    (ls_entries_default_sorted_unique [[⟨16, 1⟩, ⟨4096, 2⟩], [⟨4096, 2⟩, ⟨8, 3⟩]]).2
      ⟨4096, 2⟩ (by simp)⟩

/-- Claim C9: a `HeaderEntry` row carries `size_signed`, `size_uncompressed`
and `rom_size` rendered in hex as its last three columns, while the row of
any other entry carries three empty strings there — the empty string, never
a rendering of zero (which would be "0x0"). -/
theorem extended_sizes_only_for_header_entries :
    (∀ (index : Nat) (b : EntryBase) (ss su rs : Nat) (md5hex : String) (verified : Bool),
      (rowValues index (.headerEntry b ss su rs) md5hex verified).drop 9 =
        [pyHex ss, pyHex su, pyHex rs]) ∧
    (∀ (index : Nat) (b : EntryBase) (md5hex : String) (verified : Bool),
      (rowValues index (.plainEntry b) md5hex verified).drop 9 = ["", "", ""]) ∧
    pyHex 0 = "0x0" ∧ ("" : String) ≠ "0x0" :=
  ⟨fun _ _ _ _ _ _ _ => rfl, fun _ _ _ _ => rfl, by decide, by decide⟩

/-- The `ls_entries` row loop returns the state it was given. -/
theorem lsEntriesAux_state (fns : ExternalFns) (es : List LsEntry)
    (s : PSPToolLs) (i : Nat) : (lsEntriesAux fns s i es).2 = s := by
  induction es generalizing s i with
  | nil => rfl
  | cons e rest ih => simp [lsEntriesAux, entryRow, ih]

/-- `ls_entries` returns the state it was given. -/
theorem ls_entries_state (fns : ExternalFns) (s : PSPToolLs)
    (entries : Option (List LsEntry)) : (ls_entries fns s entries).2 = s := by
  cases entries <;> simp [ls_entries, lsEntriesAux_state]

/-- The directory loop returns the state it was given. -/
theorem lsDirsAux_state (fns : ExternalFns) (ds : List LsDirectory)
    (s : PSPToolLs) (i : Nat) : (lsDirsAux fns s i ds).2 = s := by
  induction ds generalizing s i with
  | nil => rfl
  | cons d rest ih => simp [lsDirsAux, ls_entries_state, ih]

/-- The table loop returns the state it was given. -/
theorem lsFetsAux_state (fns : ExternalFns) (fs : List (List LsDirectory))
    (s : PSPToolLs) : (lsFetsAux fns s fs).2 = s := by
  induction fs generalizing s with
  | nil => rfl
  | cons f rest ih => simp [lsFetsAux, lsDirsAux_state, ih]

/-- Claim C10: the inventory listing is read-only — `ls`, `ls_dir` and
`ls_entries` (with the digest and signature-verification capabilities they
trigger) leave the ROM buffer byte-for-byte unchanged, for every external
digest/verification/decoding capability and every tool state. -/
theorem ls_read_only (fns : ExternalFns) (s : PSPToolLs) :
    (ls fns s).2.buffer = s.buffer ∧
      (∀ fet directory_index,
        (ls_dir fns s fet directory_index).2.buffer = s.buffer) ∧
      ∀ entries, (ls_entries fns s entries).2.buffer = s.buffer := by
  refine ⟨?_, fun fet i => ?_, fun entries => ?_⟩
  · rw [ls, lsFetsAux_state]
  · rw [ls_dir, ls_entries_state]
  · rw [ls_entries_state]
